import Mathlib

/-!
# Burn-severity classification and area statistics

A shallow embedding of Part 5 (the Landsat 8 cloud mask), Parts 8, 9
(classification) and 10A/10B (area statistics) of `Codes/Wild fire mapping.js`.

Modelling conventions
* A pixel value is an exact rational number; a masked pixel is `none`.
* An image band is a function from pixel positions to optional values; the
  platform's per-pixel operators (`lt`, `reduce('sum')`, `eq`, `updateMask`)
  act position by position.
* A region at a given scale is the finite list of pixel positions that the
  reducer visits.
* Numbers are exact rationals and `round` sends a half upwards. The platform
  computes in binary floating point: `fl` is its rounding to the nearest
  representable number, and `dNBRfloat` the burn-ratio difference computed with
  it. `perc` and `hect` are the exact values; they are evaluated below only at
  inputs where every intermediate result is representable.
-/

namespace WildFire

/-- An image band: an optional value at every pixel position (`none` = masked). -/
abbrev Image (α : Type) := Nat → Option α

/-- A region sampled at a fixed scale: the pixel positions the reducer visits. -/
abbrev Region := List Nat

/-- An image given by the finite list of its pixel values, masked elsewhere. -/
def Image.ofList {α : Type} (vals : List α) : Image α := fun p => vals[p]?

/-- Part 8: `preNBR.subtract(postNBR).multiply(1000)` at one pixel, computed
without rounding. -/
def dNBR (preNBR postNBR : ℚ) : ℚ := (preNBR - postNBR) * 1000

/-- Part 9: `var thresholds = ee.Image([-1000, -251, -101, 99, 269, 439, 659, 2000])`. -/
def thresholds : List ℚ := [-1000, -251, -101, 99, 269, 439, 659, 2000]

/-- The per-band result of `dNBR.lt(thresholds)` at a pixel of value `d`:
1 where `d` is strictly below the band's threshold, 0 elsewhere. -/
def lt (d : ℚ) (ts : List ℚ) : List Nat := ts.map (fun t => if d < t then 1 else 0)

/-- The pixel value of `dNBR.lt(thresholds).reduce('sum').toInt()` for a pixel
of dNBR value `d`. -/
def classified (d : ℚ) : Nat := (lt d thresholds).sum

/-- The image `classified`: the classifier applied at every unmasked pixel. -/
def classifiedImage (dNBRimg : Image ℚ) : Image Nat := fun p => (dNBRimg p).map classified

/-- `img.updateMask(mask)`: a pixel stays valid when it is valid in `img` and the
mask image is valid and non-zero there. -/
def updateMask {α : Type} (img : Image α) (mask : Image Nat) : Image α := fun p =>
  match img p, mask p with
  | some v, some m => if m ≠ 0 then some v else none
  | _, _ => none

/-- `img.eq(cnr)`: 1 where the pixel equals `cnr`, 0 elsewhere. -/
def eq (img : Image Nat) (cnr : Nat) : Image Nat := fun p =>
  (img p).map (fun v => if v = cnr then 1 else 0)

/-- `img.reduceRegion({reducer: ee.Reducer.count(), geometry: area, scale: 30})`:
the number of valid pixels of `img` among the positions of the region. -/
def reduceRegionCount {α : Type} (img : Image α) (area : Region) : Nat :=
  area.countP (fun p => (img p).isSome)

/-- Part 10A: `var allpix = classified.updateMask(classified)`. -/
def allpix (dNBRimg : Image ℚ) : Image Nat :=
  updateMask (classifiedImage dNBRimg) (classifiedImage dNBRimg)

/-- Part 10A: `var allpixels = ee.Number(pixstats.get('sum'))`. -/
def allpixels (dNBRimg : Image ℚ) (area : Region) : Nat :=
  reduceRegionCount (allpix dNBRimg) area

/-- One entry of `arealist`. -/
structure ClassStat where
  Class : String
  Pixels : Nat
  Hectares : ℚ
  Percentage : ℚ
  deriving DecidableEq

/-- `classified.updateMask(classified.eq(cnr))`. -/
def singleMask (dNBRimg : Image ℚ) (cnr : Nat) : Image Nat :=
  updateMask (classifiedImage dNBRimg) (eq (classifiedImage dNBRimg) cnr)

/-- `a.divide(b)` on numbers; the platform documents it as "returning 0 for
division by 0". -/
def divide (a b : ℚ) : ℚ := if b = 0 then 0 else a / b

/-- `pix.multiply(900).divide(10000)`. -/
def hect (pix : Nat) : ℚ := divide ((pix : ℚ) * 900) 10000

/-- `pix.divide(allpixels).multiply(10000).round().divide(100)`, computed without
rounding of the quotient and the product. -/
def perc (pix allpixels : Nat) : ℚ :=
  ((round (divide (pix : ℚ) (allpixels : ℚ) * 10000) : ℤ) : ℚ) / 100

/-- The record `areacount(cnr, name)` pushes onto `arealist`. Part 10A runs it with
the study area and Part 10B, the same code, with the smaller `area2`; the region is
a parameter here. -/
def areacount (dNBRimg : Image ℚ) (area : Region) (cnr : Nat) (name : String) : ClassStat :=
  let pix := reduceRegionCount (singleMask dNBRimg cnr) area
  { Class := name, Pixels := pix, Hectares := hect pix,
    Percentage := perc pix (allpixels dNBRimg area) }

/-- Severity class names, in class-index order. -/
def names2 : List String :=
  ["NA", "High Severity", "Moderate-high Severity", "Moderate-low Severity",
   "Low Severity", "Unburned", "Enhanced Regrowth, Low", "Enhanced Regrowth, High"]

/-- The list `arealist` after `for (var i = 0; i < 8; i++) areacount(i, names2[i])`. -/
def arealist (dNBRimg : Image ℚ) (area : Region) : List ClassStat :=
  (List.range 8).map (fun i => areacount dNBRimg area i (names2.getD i "undefined"))

/-- The label `names2[cnr]` reported for a class index (`none` where the
JavaScript array has no entry). -/
def className (cnr : Nat) : Option String := names2[cnr]?

/-- The classifier as the specification words it: the smallest index `i` of the
threshold list with `d < T[i]` (the length of the list when there is none). -/
def specSmallestIndex (d : ℚ) : Nat := thresholds.findIdx (fun t => decide (d < t))

/-- The percentage denominator as the specification words it: the number of all
valid classified pixels inside the region, whatever their class. -/
def specTotalValidCount (dNBRimg : Image ℚ) (area : Region) : Nat :=
  (area.filter (fun p => (dNBRimg p).isSome)).length

/-- The number of valid pixels inside the region whose class index is not 0. -/
def nonzeroClassCount (dNBRimg : Image ℚ) (area : Region) : Nat :=
  (area.filter (fun p =>
    match dNBRimg p with
    | some d => decide (classified d ≠ 0)
    | none => false)).length

/-- The number of valid pixels inside the region whose class index is `cnr`. -/
def classCount (dNBRimg : Image ℚ) (area : Region) (cnr : Nat) : Nat :=
  (area.filter (fun p =>
    match dNBRimg p with
    | some d => decide (classified d = cnr)
    | none => false)).length

/-- Indicator of class `cnr` at position `p`: 1 when the pixel is valid and its
class index is `cnr`. -/
def classIndicator (dNBRimg : Image ℚ) (cnr p : Nat) : Nat :=
  match dNBRimg p with
  | some d => if classified d = cnr then 1 else 0
  | none => 0

/-- Indicator of a valid pixel of non-zero class at position `p`. -/
def nonzeroIndicator (dNBRimg : Image ℚ) (p : Nat) : Nat :=
  match dNBRimg p with
  | some d => if classified d ≠ 0 then 1 else 0
  | none => 0

/-- Part 5, `maskL8sr`: `var cloudShadowBitMask = 1 << 3`. -/
def cloudShadowBitMask : Nat := 1 <<< 3

/-- Part 5, `maskL8sr`: `var cloudsBitMask = 1 << 5`. -/
def cloudsBitMask : Nat := 1 <<< 5

/-- Part 5, `maskL8sr`: `var snowBitMask = 1 << 4`. -/
def snowBitMask : Nat := 1 <<< 4

/-- `x.eq(0)` at one pixel: 1 when the value is 0, else 0. -/
def eqZero (x : Nat) : Nat := if x = 0 then 1 else 0

/-- `x.and(y)` at one pixel: 1 when both values are non-zero, else 0. -/
def and (x y : Nat) : Nat := if x ≠ 0 ∧ y ≠ 0 then 1 else 0

/-- The value of `var mask` of `maskL8sr` at a pixel whose QA_PIXEL value is `qa`:
`qa.bitwiseAnd(cloudShadowBitMask).eq(0).and(qa.bitwiseAnd(cloudsBitMask).eq(0))
.and(qa.bitwiseAnd(snowBitMask).eq(0))`. -/
def maskL8sr.mask (qa : Nat) : Nat :=
  and (and (eqZero (qa &&& cloudShadowBitMask)) (eqZero (qa &&& cloudsBitMask)))
    (eqZero (qa &&& snowBitMask))

/-- `maskL8sr(image)` on one reflectance band: `image.updateMask(mask)`, the mask
being computed from the image's QA_PIXEL band `qa`. -/
def maskL8sr {α : Type} (image : Image α) (qa : Image Nat) : Image α :=
  updateMask image (fun p => (qa p).map maskL8sr.mask)

/-- Rounding to the nearest integer, a tie going to the even one. -/
def roundHalfEven (x : ℚ) : ℤ :=
  if x - ⌊x⌋ < 1 / 2 then ⌊x⌋
  else if 1 / 2 < x - ⌊x⌋ then ⌊x⌋ + 1
  else if ⌊x⌋ % 2 = 0 then ⌊x⌋ else ⌊x⌋ + 1

/-- The binary floating-point number with `prec` significand bits nearest to `x`,
ties to even (`prec = 24` is single, `prec = 53` double precision); the exponent
range is not bounded, the values here being far from overflow and underflow. -/
def fl (prec : ℕ) (x : ℚ) : ℚ :=
  if x = 0 then 0
  else (roundHalfEven (x / 2 ^ (Int.log 2 |x| - ((prec : ℤ) - 1))) : ℚ)
    * 2 ^ (Int.log 2 |x| - ((prec : ℤ) - 1))

/-- Part 8 in floating point: `preNBR.subtract(postNBR)` rounded, then
`.multiply(1000)` rounded. -/
def dNBRfloat (prec : ℕ) (preNBR postNBR : ℚ) : ℚ :=
  fl prec (fl prec (preNBR - postNBR) * 1000)

/-! ## The classifier -/

/-- The class index as a function of the interval of `d`. -/
theorem classified_eq_ite (d : ℚ) :
    classified d =
      if d < -1000 then 8 else if d < -251 then 7 else if d < -101 then 6
      else if d < 99 then 5 else if d < 269 then 4 else if d < 439 then 3
      else if d < 659 then 2 else if d < 2000 then 1 else 0 := by
  simp only [classified, lt, thresholds, List.map_cons, List.map_nil, List.sum_cons,
    List.sum_nil]
  split_ifs <;> first | rfl | (exfalso; linarith)

theorem classified_le_eight (d : ℚ) : classified d ≤ 8 := by
  rw [classified_eq_ite]; split_ifs <;> omega

theorem classified_lt_eight {d : ℚ} (h : -1000 ≤ d) : classified d < 8 := by
  rw [classified_eq_ite, if_neg (not_lt.mpr h)]; split_ifs <;> omega

theorem classified_eq_zero {d : ℚ} (hlo : 2000 ≤ d) : classified d = 0 := by
  rw [classified_eq_ite]
  split_ifs <;> first | rfl | (exfalso; linarith)

theorem classified_eq_one {d : ℚ} (hlo : 659 ≤ d) (hhi : d < 2000) : classified d = 1 := by
  rw [classified_eq_ite]
  split_ifs <;> first | rfl | (exfalso; linarith)

theorem classified_eq_two {d : ℚ} (hlo : 439 ≤ d) (hhi : d < 659) : classified d = 2 := by
  rw [classified_eq_ite]
  split_ifs <;> first | rfl | (exfalso; linarith)

theorem classified_eq_three {d : ℚ} (hlo : 269 ≤ d) (hhi : d < 439) : classified d = 3 := by
  rw [classified_eq_ite]
  split_ifs <;> first | rfl | (exfalso; linarith)

theorem classified_eq_four {d : ℚ} (hlo : 99 ≤ d) (hhi : d < 269) : classified d = 4 := by
  rw [classified_eq_ite]
  split_ifs <;> first | rfl | (exfalso; linarith)

theorem classified_eq_five {d : ℚ} (hlo : -101 ≤ d) (hhi : d < 99) : classified d = 5 := by
  rw [classified_eq_ite]
  split_ifs <;> first | rfl | (exfalso; linarith)

theorem classified_eq_six {d : ℚ} (hlo : -251 ≤ d) (hhi : d < -101) : classified d = 6 := by
  rw [classified_eq_ite]
  split_ifs <;> first | rfl | (exfalso; linarith)

theorem classified_eq_seven {d : ℚ} (hlo : -1000 ≤ d) (hhi : d < -251) : classified d = 7 := by
  rw [classified_eq_ite]
  split_ifs <;> first | rfl | (exfalso; linarith)

theorem classified_eq_eight {d : ℚ} (hhi : d < -1000) : classified d = 8 := by
  rw [classified_eq_ite, if_pos hhi]

/-- Summing the 0/1 bands of `lt` counts the thresholds strictly above `d`. -/
theorem lt_sum_eq_length_filter (d : ℚ) (ts : List ℚ) :
    (lt d ts).sum = (ts.filter (fun t => decide (d < t))).length := by
  induction ts with
  | nil => rfl
  | cons t ts ih =>
    have hcons : (lt d (t :: ts)).sum = (if d < t then 1 else 0) + (lt d ts).sum := by
      simp [lt]
    rw [hcons, ih, List.filter_cons]
    by_cases h : d < t
    · simp [h, Nat.add_comm]
    · simp [h]

/-- The first threshold above `d`, as a function of the interval of `d`. -/
theorem specSmallestIndex_eq_ite (d : ℚ) :
    specSmallestIndex d =
      if d < -1000 then 0 else if d < -251 then 1 else if d < -101 then 2
      else if d < 99 then 3 else if d < 269 then 4 else if d < 439 then 5
      else if d < 659 then 6 else if d < 2000 then 7 else 8 := by
  simp only [specSmallestIndex, thresholds, List.findIdx_cons, List.findIdx_nil,
    decide_eq_true_eq]
  split_ifs <;> simp [*]

/-- C1 (code defect): a dNBR of -1200, which the NBR pair (-1/2, 7/10) produces,
gets class index 8: it is none of the 8 indices 0..7 that the `areacount` loop
visits and `names2` has no entry for it. -/
theorem classified_below_range_unmapped :
    dNBR (-1/2) (7/10) = -1200 ∧ classified (-1200) = 8 ∧ ¬ classified (-1200) < 8 ∧
      classified (-1200) ∉ List.range 8 ∧ className (classified (-1200)) = none := by
  refine ⟨by norm_num [dNBR], by decide, by decide, by decide, by decide⟩

/-- C2 (as stated, refuted): at `d = 0` the smallest index `i` with `d < T[i]` is 3
while the classifier yields 5. -/
theorem classified_ne_smallest_index :
    specSmallestIndex 0 = 3 ∧ classified 0 = 5 ∧ classified 0 ≠ specSmallestIndex 0 := by
  refine ⟨by decide, by decide, by decide⟩

/-- C2 (amended): the class index is the number of thresholds strictly above `d`,
that is 8 minus the smallest index `i` with `d < T[i]` (`i = 8` when no threshold
is above `d`). -/
theorem classified_add_smallest_index (d : ℚ) :
    classified d = (thresholds.filter (fun t => decide (d < t))).length ∧
      classified d + specSmallestIndex d = 8 :=
  ⟨lt_sum_eq_length_filter d thresholds, by
    rw [classified_eq_ite, specSmallestIndex_eq_ite]
    split_ifs <;> rfl⟩

/-- C3 (as stated, refuted): `d = 0` lies in (-101, 99], for which the table of the
specification gives index 3, "Moderate-low Severity"; the code reports index 5,
"Unburned". -/
theorem severity_table_spec_fails :
    (-101 : ℚ) < 0 ∧ (0 : ℚ) ≤ 99 ∧ classified 0 = 5 ∧
      className (classified 0) = some "Unburned" ∧
      ¬ (classified 0 = 3 ∧ className (classified 0) = some "Moderate-low Severity") := by
  refine ⟨by norm_num, by norm_num, by decide, by decide, by decide⟩

/-- C3 (amended): for every dNBR value `d ≥ -1000` the class index and the label
reported for it follow the table [2000, ∞) -> 0 "NA", [659, 2000) -> 1 "High
Severity", [439, 659) -> 2 "Moderate-high Severity", [269, 439) -> 3 "Moderate-low
Severity", [99, 269) -> 4 "Low Severity", [-101, 99) -> 5 "Unburned",
[-251, -101) -> 6 "Enhanced Regrowth, Low", [-1000, -251) -> 7 "Enhanced Regrowth,
High". -/
theorem severity_table_code (d : ℚ) (h : -1000 ≤ d) :
    (2000 ≤ d → classified d = 0 ∧ className (classified d) = some "NA") ∧
    (659 ≤ d ∧ d < 2000 →
      classified d = 1 ∧ className (classified d) = some "High Severity") ∧
    (439 ≤ d ∧ d < 659 →
      classified d = 2 ∧ className (classified d) = some "Moderate-high Severity") ∧
    (269 ≤ d ∧ d < 439 →
      classified d = 3 ∧ className (classified d) = some "Moderate-low Severity") ∧
    (99 ≤ d ∧ d < 269 →
      classified d = 4 ∧ className (classified d) = some "Low Severity") ∧
    (-101 ≤ d ∧ d < 99 →
      classified d = 5 ∧ className (classified d) = some "Unburned") ∧
    (-251 ≤ d ∧ d < -101 →
      classified d = 6 ∧ className (classified d) = some "Enhanced Regrowth, Low") ∧
    (d < -251 →
      classified d = 7 ∧ className (classified d) = some "Enhanced Regrowth, High") := by
  have key : ∀ k : Nat, classified d = k →
      ∀ s : String, className k = some s → classified d = k ∧
        className (classified d) = some s := fun k hk s hs => ⟨hk, hk ▸ hs⟩
  exact ⟨fun h0 => key 0 (classified_eq_zero h0) _ rfl,
    fun h1 => key 1 (classified_eq_one h1.1 h1.2) _ rfl,
    fun h2 => key 2 (classified_eq_two h2.1 h2.2) _ rfl,
    fun h3 => key 3 (classified_eq_three h3.1 h3.2) _ rfl,
    fun h4 => key 4 (classified_eq_four h4.1 h4.2) _ rfl,
    fun h5 => key 5 (classified_eq_five h5.1 h5.2) _ rfl,
    fun h6 => key 6 (classified_eq_six h6.1 h6.2) _ rfl,
    fun h7 => key 7 (classified_eq_seven h h7) _ rfl⟩

theorem severity_table_code_witness :
    (-1000 : ℚ) ≤ 0 ∧ classified 0 = 5 ∧ className (classified 0) = some "Unburned" :=
  ⟨by norm_num, (severity_table_code 0 (by norm_num)).2.2.2.2.2.1 ⟨by norm_num, by norm_num⟩⟩

/-- C4 (as stated, refuted): a dNBR of exactly -1000 is not class 1 and a dNBR of
2000 is not class 7. -/
theorem boundary_spec_fails :
    classified (-1000) = 7 ∧ classified (-1000) ≠ 1 ∧ classified 2000 = 0 ∧
      classified 2000 ≠ 7 := by
  refine ⟨by decide, by decide, by decide, by decide⟩

/-- C4 (amended): a dNBR of exactly -1000 is class 7 (not class 8, the comparison
being strict) and every dNBR of 2000 or more is class 0. -/
theorem boundary_code (d : ℚ) (h : 2000 ≤ d) :
    classified (-1000) = 7 ∧ classified (-1000) ≠ 8 ∧ classified d = 0 :=
  ⟨by decide, by decide, classified_eq_zero h⟩

theorem boundary_code_witness :
    (2000 : ℚ) ≤ 2000 ∧ classified (-1000) = 7 ∧ classified (-1000) ≠ 8 ∧
      classified 2000 = 0 :=
  ⟨le_refl _, boundary_code 2000 (le_refl _)⟩

/-! ## Pixel counts -/

theorem reduceRegionCount_nil {α : Type} (img : Image α) : reduceRegionCount img [] = 0 := rfl

theorem reduceRegionCount_cons {α : Type} (img : Image α) (p : Nat) (area : Region) :
    reduceRegionCount img (p :: area) =
      reduceRegionCount img area + if (img p).isSome then 1 else 0 := by
  simp [reduceRegionCount, List.countP_cons]

theorem singleMask_isSome (dNBRimg : Image ℚ) (cnr p : Nat) :
    (if (singleMask dNBRimg cnr p).isSome then 1 else 0) = classIndicator dNBRimg cnr p := by
  unfold singleMask updateMask eq classifiedImage classIndicator
  cases h : dNBRimg p with
  | none => simp
  | some d => by_cases hc : classified d = cnr <;> simp [hc]

theorem allpix_isSome (dNBRimg : Image ℚ) (p : Nat) :
    (if (allpix dNBRimg p).isSome then 1 else 0) = nonzeroIndicator dNBRimg p := by
  unfold allpix updateMask classifiedImage nonzeroIndicator
  cases h : dNBRimg p with
  | none => simp
  | some d => by_cases hc : classified d = 0 <;> simp [hc]

/-- The per-class pixel count `pix` of `areacount(cnr, _)`. -/
theorem areacount_Pixels (dNBRimg : Image ℚ) (area : Region) (cnr : Nat) (name : String) :
    (areacount dNBRimg area cnr name).Pixels = reduceRegionCount (singleMask dNBRimg cnr) area :=
  rfl

theorem pix_cons (dNBRimg : Image ℚ) (cnr p : Nat) (area : Region) :
    reduceRegionCount (singleMask dNBRimg cnr) (p :: area) =
      reduceRegionCount (singleMask dNBRimg cnr) area + classIndicator dNBRimg cnr p := by
  rw [reduceRegionCount_cons, singleMask_isSome]

theorem allpixels_cons (dNBRimg : Image ℚ) (p : Nat) (area : Region) :
    allpixels dNBRimg (p :: area) = allpixels dNBRimg area + nonzeroIndicator dNBRimg p := by
  unfold allpixels
  rw [reduceRegionCount_cons, allpix_isSome]

/-- The pixel counts of the 8 records of `arealist`, added up. -/
theorem arealist_Pixels_sum (dNBRimg : Image ℚ) (area : Region) :
    ((arealist dNBRimg area).map (fun r => r.Pixels)).sum =
      reduceRegionCount (singleMask dNBRimg 0) area + reduceRegionCount (singleMask dNBRimg 1) area
      + reduceRegionCount (singleMask dNBRimg 2) area + reduceRegionCount (singleMask dNBRimg 3) area
      + reduceRegionCount (singleMask dNBRimg 4) area + reduceRegionCount (singleMask dNBRimg 5) area
      + reduceRegionCount (singleMask dNBRimg 6) area
      + reduceRegionCount (singleMask dNBRimg 7) area := by
  simp only [arealist, List.range_succ, List.range_zero, List.nil_append, List.cons_append,
    List.map_cons, List.map_nil, List.sum_cons, List.sum_nil, areacount_Pixels]
  omega

/-- At one position: the indicators of classes 0..8 add up to those of "class 0" and
"class not 0". -/
theorem classIndicator_sum (dNBRimg : Image ℚ) (p : Nat) :
    classIndicator dNBRimg 0 p + classIndicator dNBRimg 1 p + classIndicator dNBRimg 2 p
      + classIndicator dNBRimg 3 p + classIndicator dNBRimg 4 p + classIndicator dNBRimg 5 p
      + classIndicator dNBRimg 6 p + classIndicator dNBRimg 7 p + classIndicator dNBRimg 8 p
      = nonzeroIndicator dNBRimg p + classIndicator dNBRimg 0 p := by
  unfold classIndicator nonzeroIndicator
  cases h : dNBRimg p with
  | none => rfl
  | some d =>
    have h8 := classified_le_eight d
    obtain ⟨c, hc⟩ : ∃ c, classified d = c := ⟨_, rfl⟩
    simp only [hc] at h8 ⊢
    interval_cases c <;> simp

/-- Every valid pixel of the region is of exactly one class 0..8: the counts of the
classes 0..7 and of class 8 add up to `allpixels` plus the count of class 0. -/
theorem pix_partition (dNBRimg : Image ℚ) (area : Region) :
    ((arealist dNBRimg area).map (fun r => r.Pixels)).sum
        + reduceRegionCount (singleMask dNBRimg 8) area
      = allpixels dNBRimg area + reduceRegionCount (singleMask dNBRimg 0) area := by
  rw [arealist_Pixels_sum]
  induction area with
  | nil => rfl
  | cons p area ih =>
    simp only [pix_cons, allpixels_cons]
    have := classIndicator_sum dNBRimg p
    omega

/-- The count of class 8 is zero when no valid pixel of the region is below -1000. -/
theorem pix_eight_eq_zero (dNBRimg : Image ℚ) (area : Region)
    (h : ∀ p ∈ area, ∀ d, dNBRimg p = some d → -1000 ≤ d) :
    reduceRegionCount (singleMask dNBRimg 8) area = 0 := by
  induction area with
  | nil => rfl
  | cons p area ih =>
    rw [pix_cons, ih (fun q hq => h q (List.mem_cons_of_mem _ hq))]
    unfold classIndicator
    cases hp : dNBRimg p with
    | none => rfl
    | some d =>
      have := classified_lt_eight (h p (List.mem_cons_self _ _) d hp)
      simp; omega

theorem divide_eq_div (a b : ℚ) : divide a b = a / b := by
  unfold divide
  split_ifs with h
  · rw [h, div_zero]
  · rfl

theorem allpixels_eq_nonzeroClassCount (dNBRimg : Image ℚ) (area : Region) :
    allpixels dNBRimg area = nonzeroClassCount dNBRimg area := by
  induction area with
  | nil => rfl
  | cons p area ih =>
    rw [allpixels_cons, ih]
    unfold nonzeroClassCount nonzeroIndicator
    rw [List.filter_cons]
    cases hp : dNBRimg p with
    | none => simp
    | some d => by_cases hc : classified d = 0 <;> simp [hc]

theorem pix_eq_classCount (dNBRimg : Image ℚ) (area : Region) (cnr : Nat) :
    reduceRegionCount (singleMask dNBRimg cnr) area = classCount dNBRimg area cnr := by
  induction area with
  | nil => rfl
  | cons p area ih =>
    rw [pix_cons, ih]
    unfold classCount classIndicator
    rw [List.filter_cons]
    cases hp : dNBRimg p with
    | none => simp
    | some d => by_cases hc : classified d = cnr <;> simp [hc]

/-! ## Area statistics -/

/-- C5 (code defect): for the two-pixel raster [2000, 0], both pixels valid and
inside the region, the per-class counts of `areacount` add up to 2, the number of
valid pixels, while `allpixels` is 1: the pixel of class 0 is masked out of
`allpix`. -/
theorem pixel_sum_ne_allpixels :
    specTotalValidCount (Image.ofList [2000, 0]) [0, 1] = 2 ∧
    ((arealist (Image.ofList [2000, 0]) [0, 1]).map (fun r => r.Pixels)).sum = 2 ∧
      allpixels (Image.ofList [2000, 0]) [0, 1] = 1 ∧
      ((arealist (Image.ofList [2000, 0]) [0, 1]).map (fun r => r.Pixels)).sum ≠
        allpixels (Image.ofList [2000, 0]) [0, 1] := by
  refine ⟨by decide, by decide, by decide, by decide⟩

theorem areacount_Percentage (dNBRimg : Image ℚ) (area : Region) (cnr : Nat) (name : String) :
    (areacount dNBRimg area cnr name).Percentage =
      perc (reduceRegionCount (singleMask dNBRimg cnr) area) (allpixels dNBRimg area) := rfl

theorem perc_eq (pix n : Nat) :
    perc pix n = ((round ((pix : ℚ) / (n : ℚ) * 10000) : ℤ) : ℚ) / 100 := by
  unfold perc
  rw [divide_eq_div]

/-- C6 (code defect): in the raster [2000, 0] both pixels are valid, so the number of
pixels of the entire layer is 2 and the percentage of class 5 is 50; the code
records 100, its denominator `allpixels` being 1. -/
theorem percentage_denominator_drops_class_zero :
    0 < specTotalValidCount (Image.ofList [2000, 0]) [0, 1] ∧
      (areacount (Image.ofList [2000, 0]) [0, 1] 5 "Unburned").Pixels = 1 ∧
      specTotalValidCount (Image.ofList [2000, 0]) [0, 1] = 2 ∧
      ((round (((1 : Nat) : ℚ) / ((2 : Nat) : ℚ) * 10000) : ℤ) : ℚ) / 100 = 50 ∧
      allpixels (Image.ofList [2000, 0]) [0, 1] = 1 ∧
      (areacount (Image.ofList [2000, 0]) [0, 1] 5 "Unburned").Percentage = 100 := by
  have hp : reduceRegionCount (singleMask (Image.ofList [2000, 0]) 5) [0, 1] = 1 := by decide
  have ha : allpixels (Image.ofList [2000, 0]) [0, 1] = 1 := by decide
  refine ⟨by decide, by decide, by decide, by norm_num, ha, ?_⟩
  rw [areacount_Percentage, hp, ha, perc_eq]
  norm_num

/-- C8: the Hectares of a record are its pixel count times 30^2 / 10000, that is
times 900 / 10000; one pixel is 0.09 ha and Hectares is strictly increasing in the
pixel count. -/
theorem hectares_formula (dNBRimg : Image ℚ) (area : Region) (cnr : Nat) (name : String) :
    (areacount dNBRimg area cnr name).Hectares =
        ((areacount dNBRimg area cnr name).Pixels : ℚ) * 30 ^ 2 / 10000 ∧
      (areacount dNBRimg area cnr name).Hectares =
        ((areacount dNBRimg area cnr name).Pixels : ℚ) * 900 / 10000 ∧
      (areacount dNBRimg area cnr name).Hectares =
        hect (reduceRegionCount (singleMask dNBRimg cnr) area) ∧
      hect 1 = 9 / 100 ∧ StrictMono hect := by
  have hh : ∀ n : Nat, hect n = (n : ℚ) * 900 / 10000 := fun n => by
    unfold hect; rw [divide_eq_div]
  have hH : (areacount dNBRimg area cnr name).Hectares =
      hect (areacount dNBRimg area cnr name).Pixels := rfl
  refine ⟨?_, ?_, rfl, ?_, ?_⟩
  · rw [hH, hh]; norm_num
  · rw [hH, hh]
  · rw [hh]; norm_num
  · intro a b hab
    rw [hh, hh]
    have : (a : ℚ) < (b : ℚ) := by exact_mod_cast hab
    linarith

/-- The percentages of the 8 records of `arealist`, added up. -/
theorem arealist_Percentage_sum (dNBRimg : Image ℚ) (area : Region) :
    ((arealist dNBRimg area).map (fun r => r.Percentage)).sum =
      perc (reduceRegionCount (singleMask dNBRimg 0) area) (allpixels dNBRimg area)
      + (perc (reduceRegionCount (singleMask dNBRimg 1) area) (allpixels dNBRimg area)
      + perc (reduceRegionCount (singleMask dNBRimg 2) area) (allpixels dNBRimg area)
      + perc (reduceRegionCount (singleMask dNBRimg 3) area) (allpixels dNBRimg area)
      + perc (reduceRegionCount (singleMask dNBRimg 4) area) (allpixels dNBRimg area)
      + perc (reduceRegionCount (singleMask dNBRimg 5) area) (allpixels dNBRimg area)
      + perc (reduceRegionCount (singleMask dNBRimg 6) area) (allpixels dNBRimg area)
      + perc (reduceRegionCount (singleMask dNBRimg 7) area) (allpixels dNBRimg area)) := by
  simp only [arealist, List.range_succ, List.range_zero, List.nil_append, List.cons_append,
    List.map_cons, List.map_nil, List.sum_cons, List.sum_nil, areacount_Percentage]
  ring

/-- One rounded percentage is within 0.005 of the exact share. -/
theorem perc_near (pix n : Nat) :
    |perc pix n - (pix : ℚ) / (n : ℚ) * 100| ≤ 1 / 200 := by
  rw [perc_eq]
  have h := abs_sub_round ((pix : ℚ) / (n : ℚ) * 10000)
  rw [abs_le] at h ⊢
  constructor <;> linarith [h.1, h.2]

/-- C7 (code defect): for the raster [2000, 0], both pixels valid and inside the
region, the 8 percentages of `arealist` add up to 200, not to a value within 0.08
of 100. -/
theorem percentage_sum_two_hundred :
    0 < specTotalValidCount (Image.ofList [2000, 0]) [0, 1] ∧
      ((arealist (Image.ofList [2000, 0]) [0, 1]).map (fun r => r.Percentage)).sum = 200 ∧
      ¬ |((arealist (Image.ofList [2000, 0]) [0, 1]).map (fun r => r.Percentage)).sum - 100|
          ≤ 8 / 100 := by
  have ha : allpixels (Image.ofList [2000, 0]) [0, 1] = 1 := by decide
  have h0 : reduceRegionCount (singleMask (Image.ofList [2000, 0]) 0) [0, 1] = 1 := by decide
  have h1 : reduceRegionCount (singleMask (Image.ofList [2000, 0]) 1) [0, 1] = 0 := by decide
  have h2 : reduceRegionCount (singleMask (Image.ofList [2000, 0]) 2) [0, 1] = 0 := by decide
  have h3 : reduceRegionCount (singleMask (Image.ofList [2000, 0]) 3) [0, 1] = 0 := by decide
  have h4 : reduceRegionCount (singleMask (Image.ofList [2000, 0]) 4) [0, 1] = 0 := by decide
  have h5 : reduceRegionCount (singleMask (Image.ofList [2000, 0]) 5) [0, 1] = 1 := by decide
  have h6 : reduceRegionCount (singleMask (Image.ofList [2000, 0]) 6) [0, 1] = 0 := by decide
  have h7 : reduceRegionCount (singleMask (Image.ofList [2000, 0]) 7) [0, 1] = 0 := by decide
  have hs : ((arealist (Image.ofList [2000, 0]) [0, 1]).map (fun r => r.Percentage)).sum
      = 200 := by
    rw [arealist_Percentage_sum, ha, h0, h1, h2, h3, h4, h5, h6, h7]
    simp only [perc_eq]
    norm_num
  refine ⟨by decide, hs, ?_⟩
  rw [hs]
  norm_num

/-- C9 (as stated, refuted): for a region that holds no pixel of the raster,
`allpixels` is 0 and `arealist` still holds 8 records, each with the number 0 as its
Percentage. -/
theorem zero_denominator_spec_fails :
    allpixels (Image.ofList [0, 300]) [5, 6] = 0 ∧
      (arealist (Image.ofList [0, 300]) [5, 6]).length = 8 ∧
      (arealist (Image.ofList [0, 300]) [5, 6]).map (fun r => r.Percentage) =
        [0, 0, 0, 0, 0, 0, 0, 0] := by
  have ha : allpixels (Image.ofList [0, 300]) [5, 6] = 0 := by decide
  refine ⟨ha, by simp [arealist], ?_⟩
  simp [arealist, List.range_succ, areacount_Percentage, ha, perc, divide]

/-- C9 (amended): when `allpixels` is 0 no error is raised: `areacount` records a
Percentage of 0 for the class, the division by zero giving 0, and `arealist` holds
its 8 records. -/
theorem zero_denominator_code (dNBRimg : Image ℚ) (area : Region) (cnr : Nat) (name : String)
    (h : allpixels dNBRimg area = 0) :
    (areacount dNBRimg area cnr name).Percentage = 0 ∧
      (arealist dNBRimg area).length = 8 ∧
      ∀ r ∈ arealist dNBRimg area, r.Percentage = 0 := by
  have hp : ∀ k : Nat, perc k (allpixels dNBRimg area) = 0 := fun k => by
    simp [perc, divide, h]
  refine ⟨hp _, by simp [arealist], ?_⟩
  intro r hr
  simp only [arealist, List.mem_map] at hr
  obtain ⟨i, -, rfl⟩ := hr
  exact hp _

theorem zero_denominator_code_witness :
    allpixels (Image.ofList [2000]) [0, 1] = 0 ∧
    (areacount (Image.ofList [2000]) [0, 1] 0 "NA").Percentage = 0 ∧
      (arealist (Image.ofList [2000]) [0, 1]).length = 8 ∧
      ∀ r ∈ arealist (Image.ofList [2000]) [0, 1], r.Percentage = 0 :=
  ⟨by decide, zero_denominator_code _ _ 0 "NA" (by decide)⟩

/-- C10 (as stated, refuted): on the raster [-1200, -50, 300, 700] the classifier does
not yield [1, 3, 5, 7], and class 7 gets no pixel. -/
theorem scenario_spec_fails :
    [-1200, -50, 300, 700].map classified = [8, 5, 3, 1] ∧
      [-1200, -50, 300, 700].map classified ≠ [1, 3, 5, 7] ∧
      (areacount (Image.ofList [-1200, -50, 300, 700]) [0, 1, 2, 3] 7
        "Enhanced Regrowth, High").Pixels = 0 := by
  refine ⟨by decide, by decide, by decide⟩

/-- C10 (amended): on the raster [-1200, -50, 300, 700], all pixels valid and inside
the region, the values -50, 300 and 700 get the classes 5, 3 and 1, `allpixels` is 4,
and each of the classes 1, 3 and 5 gets Pixels = 1, Hectares = 0.09 and
Percentage = 25.00. -/
theorem scenario_code :
    [-50, 300, 700].map classified = [5, 3, 1] ∧
      allpixels (Image.ofList [-1200, -50, 300, 700]) [0, 1, 2, 3] = 4 ∧
      areacount (Image.ofList [-1200, -50, 300, 700]) [0, 1, 2, 3] 1 "High Severity" =
        ⟨"High Severity", 1, 9 / 100, 25⟩ ∧
      areacount (Image.ofList [-1200, -50, 300, 700]) [0, 1, 2, 3] 3 "Moderate-low Severity" =
        ⟨"Moderate-low Severity", 1, 9 / 100, 25⟩ ∧
      areacount (Image.ofList [-1200, -50, 300, 700]) [0, 1, 2, 3] 5 "Unburned" =
        ⟨"Unburned", 1, 9 / 100, 25⟩ ∧
      (arealist (Image.ofList [-1200, -50, 300, 700]) [0, 1, 2, 3]).map (fun r => r.Class) =
        names2 := by
  have ha : allpixels (Image.ofList [-1200, -50, 300, 700]) [0, 1, 2, 3] = 4 := by decide
  have h1 : reduceRegionCount (singleMask (Image.ofList [-1200, -50, 300, 700]) 1)
      [0, 1, 2, 3] = 1 := by decide
  have h3 : reduceRegionCount (singleMask (Image.ofList [-1200, -50, 300, 700]) 3)
      [0, 1, 2, 3] = 1 := by decide
  have h5 : reduceRegionCount (singleMask (Image.ofList [-1200, -50, 300, 700]) 5)
      [0, 1, 2, 3] = 1 := by decide
  have hh : hect 1 = 9 / 100 := by unfold hect; rw [divide_eq_div]; norm_num
  have hq : perc 1 4 = 25 := by rw [perc_eq]; norm_num
  refine ⟨by decide, ha, ?_, ?_, ?_, by decide⟩
  · simp only [areacount, ha, h1, hh, hq]
  · simp only [areacount, ha, h3, hh, hq]
  · simp only [areacount, ha, h5, hh, hq]

/-! ## Cloud mask of Landsat 8 -/

/-- A bit mask below 64 only reads the six low bits of the QA value. -/
theorem land_eq_mod_land (qa m : Nat) (hm : 63 &&& m = m) : qa &&& m = (qa % 64) &&& m := by
  have h63 : qa &&& 63 = qa % 64 := Nat.and_pow_two_sub_one_eq_mod qa 6
  calc qa &&& m = qa &&& (63 &&& m) := by rw [hm]
    _ = (qa &&& 63) &&& m := (Nat.and_assoc qa 63 m).symm
    _ = (qa % 64) &&& m := by rw [h63]

theorem mask_eq_mask_mod (qa : Nat) : maskL8sr.mask qa = maskL8sr.mask (qa % 64) := by
  unfold maskL8sr.mask
  rw [land_eq_mod_land qa cloudShadowBitMask (by decide),
    land_eq_mod_land qa cloudsBitMask (by decide),
    land_eq_mod_land qa snowBitMask (by decide)]

/-- The mask on the 64 values of the six low bits. -/
theorem mask_low_bits :
    ∀ r : Fin 64, (maskL8sr.mask r.val = 1 ↔ r.val &&& 56 = 0) ∧
      (maskL8sr.mask r.val = 1 ∨ maskL8sr.mask r.val = 0) ∧
      (r.val &&& 56 = 0 ↔
        r.val.testBit 3 = false ∧ r.val.testBit 5 = false ∧ r.val.testBit 4 = false) ∧
      maskL8sr.mask r.val = maskL8sr.mask (r.val &&& 56) := by
  decide

/-- C11: the mask of `maskL8sr` is 1 exactly when bits 3, 5 and 4 of the QA_PIXEL
value are all zero, that is when `qa AND 56 = 0`, and it is 0 otherwise; the mask is
the same for `qa` and for `qa AND 56`, so no other bit has an influence; a valid
pixel of the image is kept by `maskL8sr` exactly when `qa AND 56 = 0`. -/
theorem maskL8sr_keeps_iff {α : Type} (image : Image α) (qaBand : Image Nat) (p qa : Nat) :
    (maskL8sr.mask qa = 1 ↔ qa &&& 56 = 0) ∧
      (maskL8sr.mask qa = 1 ∨ maskL8sr.mask qa = 0) ∧
      (qa &&& 56 = 0 ↔ qa.testBit 3 = false ∧ qa.testBit 5 = false ∧ qa.testBit 4 = false) ∧
      maskL8sr.mask qa = maskL8sr.mask (qa &&& 56) ∧
      maskL8sr image qaBand p =
        (match image p, qaBand p with
          | some v, some q => if q &&& 56 = 0 then some v else none
          | _, _ => none) := by
  have hlow : ∀ q : Nat, (maskL8sr.mask q = 1 ↔ q &&& 56 = 0) ∧
      (maskL8sr.mask q = 1 ∨ maskL8sr.mask q = 0) ∧
      (q &&& 56 = 0 ↔ q.testBit 3 = false ∧ q.testBit 5 = false ∧ q.testBit 4 = false) ∧
      maskL8sr.mask q = maskL8sr.mask (q &&& 56) := by
    intro q
    have hr := mask_low_bits ⟨q % 64, Nat.mod_lt q (by decide)⟩
    simp only at hr
    have h56 : q &&& 56 = (q % 64) &&& 56 := land_eq_mod_land q 56 (by decide)
    have hbit : ∀ i, i < 6 → (q % 64).testBit i = q.testBit i := by
      intro i hi
      have := Nat.testBit_mod_two_pow q 6 i
      simpa [hi] using this
    rw [mask_eq_mask_mod q, h56, ← hbit 3 (by decide), ← hbit 5 (by decide),
      ← hbit 4 (by decide)]
    exact hr
  refine ⟨(hlow qa).1, (hlow qa).2.1, (hlow qa).2.2.1, (hlow qa).2.2.2, ?_⟩
  unfold maskL8sr updateMask
  beta_reduce
  cases hi : image p with
  | none => rfl
  | some v =>
    cases hq : qaBand p with
    | none => rfl
    | some q =>
      have h1 := (hlow q).1
      have h2 := (hlow q).2.1
      by_cases h : q &&& 56 = 0
      · simp [h, h1.mpr h]
      · have h0 : maskL8sr.mask q = 0 := by
          rcases h2 with h2 | h2
          · exact absurd (h1.mp h2) h
          · exact h2
        simp [h, h0]

/-! ## Class 0 and the range of the burn ratio -/

theorem classified_pos {d : ℚ} (h : d < 2000) : 1 ≤ classified d := by
  rw [classified_eq_ite]
  split_ifs <;> omega

theorem classified_eq_zero_iff (d : ℚ) : classified d = 0 ↔ 2000 ≤ d := by
  constructor
  · intro h0
    by_contra hlt
    have := classified_pos (not_le.mp hlt)
    omega
  · exact fun h => classified_eq_zero h

/-- The pixel of `allpix` at a position: the class index where it is not 0, masked
where the class index is 0 or the dNBR pixel is masked. -/
theorem allpix_eq (dNBRimg : Image ℚ) (p : Nat) :
    allpix dNBRimg p =
      (match dNBRimg p with
        | some d => if classified d ≠ 0 then some (classified d) else none
        | none => none) := by
  unfold allpix updateMask classifiedImage
  cases h : dNBRimg p with
  | none => rfl
  | some d => rfl

/-- Without rounding, and for NBR values in [-1, 1], the class index is 0 exactly for
the pair preNBR = 1, postNBR = -1. -/
theorem exact_class_zero_iff (preNBR postNBR : ℚ)
    (hpre : -1 ≤ preNBR ∧ preNBR ≤ 1) (hpost : -1 ≤ postNBR ∧ postNBR ≤ 1) :
    classified (dNBR preNBR postNBR) = 0 ↔ preNBR = 1 ∧ postNBR = -1 := by
  rw [classified_eq_zero_iff]
  unfold dNBR
  constructor
  · intro h
    constructor <;> linarith [hpre.1, hpre.2, hpost.1, hpost.2]
  · rintro ⟨rfl, rfl⟩
    norm_num

/-! ### Rounding to the nearest floating-point number -/

theorem roundHalfEven_intCast (n : ℤ) : roundHalfEven (n : ℚ) = n := by
  unfold roundHalfEven
  simp

/-- A tie above an odd integer goes up, to the even neighbour. -/
theorem roundHalfEven_tie_odd (x : ℚ) (n : ℤ) (hx : x = n + 1 / 2) (hn : n % 2 = 1) :
    roundHalfEven x = n + 1 := by
  have hf : ⌊x⌋ = n := by
    rw [Int.floor_eq_iff, hx]
    constructor <;> linarith
  unfold roundHalfEven
  rw [hf, hx]
  have h1 : ¬ ((n : ℚ) + 1 / 2 - n < 1 / 2) := by simp
  have h2 : ¬ ((1 : ℚ) / 2 < (n : ℚ) + 1 / 2 - n) := by simp
  have h3 : ¬ (n % 2 = 0) := by omega
  rw [if_neg h1, if_neg h2, if_neg h3]

theorem log_two_eq (x : ℚ) (e : ℤ) (hlo : (2 : ℚ) ^ e ≤ x) (hhi : x < (2 : ℚ) ^ (e + 1)) :
    Int.log 2 x = e := by
  have hpos : 0 < x := lt_of_lt_of_le (zpow_pos (by norm_num) e) hlo
  have h1 : e ≤ Int.log 2 x :=
    (Int.zpow_le_iff_le_log (by norm_num) hpos).mp (by exact_mod_cast hlo)
  have h2 : Int.log 2 x < e + 1 :=
    (Int.lt_zpow_iff_log_lt (by norm_num) hpos).mp (by exact_mod_cast hhi)
  omega

/-- The rounding of a number whose binade `[2^e, 2^(e+1))` is known. -/
theorem fl_of_binade (prec : ℕ) (x : ℚ) (e : ℤ) (hlo : (2 : ℚ) ^ e ≤ |x|)
    (hhi : |x| < (2 : ℚ) ^ (e + 1)) :
    fl prec x = (roundHalfEven (x / 2 ^ (e - ((prec : ℤ) - 1))) : ℚ)
      * 2 ^ (e - ((prec : ℤ) - 1)) := by
  have hx : x ≠ 0 := by
    intro h
    rw [h, abs_zero] at hlo
    exact absurd hlo (not_le.mpr (zpow_pos (by norm_num) e))
  unfold fl
  rw [if_neg hx, log_two_eq |x| e hlo hhi]

/-- A number that is an integer multiple of the spacing of its binade is
representable: rounding leaves it unchanged. -/
theorem fl_exact (prec : ℕ) (x : ℚ) (e n : ℤ) (hlo : (2 : ℚ) ^ e ≤ |x|)
    (hhi : |x| < (2 : ℚ) ^ (e + 1)) (hn : x = n * 2 ^ (e - ((prec : ℤ) - 1))) :
    fl prec x = x := by
  rw [fl_of_binade prec x e hlo hhi]
  have hq : (2 : ℚ) ^ (e - ((prec : ℤ) - 1)) ≠ 0 := zpow_ne_zero _ (by norm_num)
  have hdiv : x / 2 ^ (e - ((prec : ℤ) - 1)) = (n : ℚ) := by
    rw [hn]; field_simp
  rw [hdiv, roundHalfEven_intCast, ← hn]

theorem fl_two (prec : ℕ) (hp : 1 ≤ prec) : fl prec 2 = 2 := by
  apply fl_exact prec 2 1 (2 ^ (prec - 1))
  · norm_num
  · norm_num
  · have hc : ((prec - 1 : ℕ) : ℤ) = (prec : ℤ) - 1 := by omega
    push_cast
    rw [← zpow_natCast, hc, ← zpow_add₀ (by norm_num : (2 : ℚ) ≠ 0)]
    norm_num

theorem fl_neg_one (prec : ℕ) (hp : 1 ≤ prec) : fl prec (-1) = -1 := by
  apply fl_exact prec (-1) 0 (-(2 ^ (prec - 1)))
  · norm_num
  · norm_num
  · have hc : ((prec - 1 : ℕ) : ℤ) = (prec : ℤ) - 1 := by omega
    push_cast
    rw [← zpow_natCast, hc, neg_mul, ← zpow_add₀ (by norm_num : (2 : ℚ) ≠ 0)]
    norm_num

theorem fl_two_thousand (prec : ℕ) (hp : 11 ≤ prec) : fl prec 2000 = 2000 := by
  apply fl_exact prec 2000 10 (125 * 2 ^ (prec - 7))
  · norm_num
  · norm_num
  · have hc : ((prec - 7 : ℕ) : ℤ) = (prec : ℤ) - 7 := by omega
    push_cast
    rw [← zpow_natCast, hc, mul_assoc, ← zpow_add₀ (by norm_num : (2 : ℚ) ≠ 0)]
    have he : (prec : ℤ) - 7 + (10 - ((prec : ℤ) - 1)) = 4 := by ring
    rw [he]
    norm_num

/-- The pair (1, -1) gives a computed dNBR of 2000 at every precision of 11 bits or
more: both operations are exact there. -/
theorem dNBRfloat_extreme (prec : ℕ) (hp : 11 ≤ prec) : dNBRfloat prec 1 (-1) = 2000 := by
  unfold dNBRfloat
  have h2 : (1 : ℚ) - -1 = 2 := by norm_num
  have h3 : (2 : ℚ) * 1000 = 2000 := by norm_num
  rw [h2, fl_two prec (by omega), h3, fl_two_thousand prec hp]

theorem fl_double_near_one : fl 53 (1 - 1 / 2 ^ 53) = 1 - 1 / 2 ^ 53 := by
  apply fl_exact 53 _ (-1) (2 ^ 53 - 1)
  · norm_num [abs_of_pos]
  · norm_num [abs_of_pos]
  · norm_num

theorem fl_single_near_one : fl 24 (1 - 1 / 2 ^ 24) = 1 - 1 / 2 ^ 24 := by
  apply fl_exact 24 _ (-1) (2 ^ 24 - 1)
  · norm_num [abs_of_pos]
  · norm_num [abs_of_pos]
  · norm_num

/-- In double precision the difference of 1 - 2^-53 and -1 is a tie between
2 - 2^-52 and 2 and rounds to 2, so the computed dNBR is 2000. -/
theorem dNBRfloat_double_near : dNBRfloat 53 (1 - 1 / 2 ^ 53) (-1) = 2000 := by
  unfold dNBRfloat
  have hsub : (1 : ℚ) - 1 / 2 ^ 53 - -1 = 2 - 1 / 2 ^ 53 := by ring
  have h1 : fl 53 (2 - 1 / 2 ^ 53) = 2 := by
    rw [fl_of_binade 53 _ 0 (by norm_num [abs_of_pos]) (by norm_num [abs_of_pos]),
      roundHalfEven_tie_odd _ (2 ^ 53 - 1) (by norm_num) (by norm_num)]
    norm_num
  have h3 : (2 : ℚ) * 1000 = 2000 := by norm_num
  rw [hsub, h1, h3, fl_two_thousand 53 (by norm_num)]

/-- In single precision the difference of 1 - 2^-24 and -1 rounds to 2 as well. -/
theorem dNBRfloat_single_near : dNBRfloat 24 (1 - 1 / 2 ^ 24) (-1) = 2000 := by
  unfold dNBRfloat
  have hsub : (1 : ℚ) - 1 / 2 ^ 24 - -1 = 2 - 1 / 2 ^ 24 := by ring
  have h1 : fl 24 (2 - 1 / 2 ^ 24) = 2 := by
    rw [fl_of_binade 24 _ 0 (by norm_num [abs_of_pos]) (by norm_num [abs_of_pos]),
      roundHalfEven_tie_odd _ (2 ^ 24 - 1) (by norm_num) (by norm_num)]
    norm_num
  have h3 : (2 : ℚ) * 1000 = 2000 := by norm_num
  rw [hsub, h1, h3, fl_two_thousand 24 (by norm_num)]

/-- C12 (as stated, refuted): the double 1 - 2^-53 and the single 1 - 2^-24 are
representable NBR values of [-1, 1] other than 1; with postNBR = -1 the computed
dNBR is 2000 and the class index is 0 although preNBR is not 1. -/
theorem class_zero_near_extreme_pair :
    (fl 53 (1 - 1 / 2 ^ 53) = 1 - 1 / 2 ^ 53 ∧ fl 53 (-1) = -1 ∧
      (-1 : ℚ) ≤ 1 - 1 / 2 ^ 53 ∧ (1 : ℚ) - 1 / 2 ^ 53 ≤ 1 ∧ (1 : ℚ) - 1 / 2 ^ 53 ≠ 1 ∧
      classified (dNBRfloat 53 (1 - 1 / 2 ^ 53) (-1)) = 0) ∧
    (fl 24 (1 - 1 / 2 ^ 24) = 1 - 1 / 2 ^ 24 ∧ fl 24 (-1) = -1 ∧
      (-1 : ℚ) ≤ 1 - 1 / 2 ^ 24 ∧ (1 : ℚ) - 1 / 2 ^ 24 ≤ 1 ∧ (1 : ℚ) - 1 / 2 ^ 24 ≠ 1 ∧
      classified (dNBRfloat 24 (1 - 1 / 2 ^ 24) (-1)) = 0) := by
  refine ⟨⟨fl_double_near_one, fl_neg_one 53 (by norm_num), by norm_num, by norm_num,
    by norm_num, ?_⟩, ⟨fl_single_near_one, fl_neg_one 24 (by norm_num), by norm_num,
    by norm_num, by norm_num, ?_⟩⟩
  · rw [dNBRfloat_double_near]; decide
  · rw [dNBRfloat_single_near]; decide

/-- C12 (amended): at every floating-point precision of 11 bits or more and for all
pre-fire and post-fire NBR values, the class index is 0 exactly when the computed
dNBR is at least 2000, and it is in 1..8 when the computed dNBR is below 2000; the
pair preNBR = 1, postNBR = -1 has the computed dNBR 2000 and class 0. Class 0 is the
class labelled "NA", and a valid pixel is masked out of `allpix`, the percentage
denominator, exactly when its class index is 0. -/
theorem class_zero_iff_computed_dNBR (prec : ℕ) (hprec : 11 ≤ prec) (preNBR postNBR : ℚ)
    (dNBRimg : Image ℚ) (p : Nat) (d : ℚ) (hd : dNBRimg p = some d) :
    (classified (dNBRfloat prec preNBR postNBR) = 0 ↔ 2000 ≤ dNBRfloat prec preNBR postNBR) ∧
      (dNBRfloat prec preNBR postNBR < 2000 →
        1 ≤ classified (dNBRfloat prec preNBR postNBR) ∧
          classified (dNBRfloat prec preNBR postNBR) ≤ 8) ∧
      dNBRfloat prec 1 (-1) = 2000 ∧ classified (dNBRfloat prec 1 (-1)) = 0 ∧
      className 0 = some "NA" ∧
      (allpix dNBRimg p = none ↔ classified d = 0) := by
  refine ⟨classified_eq_zero_iff _, fun h => ⟨classified_pos h, classified_le_eight _⟩,
    dNBRfloat_extreme prec hprec, ?_, rfl, ?_⟩
  · rw [dNBRfloat_extreme prec hprec]; decide
  · rw [allpix_eq, hd]
    by_cases hc : classified d = 0 <;> simp [hc]

theorem class_zero_iff_computed_dNBR_witness :
    11 ≤ 53 ∧ Image.ofList [(2000 : ℚ)] 0 = some 2000 ∧
      (classified (dNBRfloat 53 (1 / 2) 0) = 0 ↔ 2000 ≤ dNBRfloat 53 (1 / 2) 0) ∧
      (dNBRfloat 53 (1 / 2) 0 < 2000 →
        1 ≤ classified (dNBRfloat 53 (1 / 2) 0) ∧ classified (dNBRfloat 53 (1 / 2) 0) ≤ 8) ∧
      dNBRfloat 53 1 (-1) = 2000 ∧ classified (dNBRfloat 53 1 (-1)) = 0 ∧
      className 0 = some "NA" ∧
      (allpix (Image.ofList [2000]) 0 = none ↔ classified 2000 = 0) :=
  ⟨by norm_num, rfl,
    class_zero_iff_computed_dNBR 53 (by norm_num) (1 / 2) 0 (Image.ofList [2000]) 0 2000 rfl⟩

end WildFire
